import Mathlib

/-!
# Verification of the freelance-job scraping pipeline

A shallow embedding of the scraping pipeline (`src/scrapers/base_scraper.py`,
`src/scrapers/sxsapi_scraper.py`, `src/scrapers/yuanjisong_scraper.py`) in Lean 4,
together with theorems settling the behavioural claims about it.

External libraries (the `crawl4ai` fetcher, `BeautifulSoup`, the `re` regex
engine) are treated as oracles: the embedding takes their outputs (fetch
outcomes, parsed element structures, regex capture groups) as explicit inputs,
and models the repository's own Python logic over those inputs faithfully.
Python exceptions are modelled with `Option`/`Except`; `None` returns are
`Option.none`; Python `dict`s are insertion-ordered association lists.
-/

/-! ## Python string primitives -/

/-- The whitespace characters recognised by Python's `str.split()` / `str.strip()`
(ASCII subset, which is all that occurs in the scraped data). -/
def isPySpace (c : Char) : Bool :=
  c = ' ' || c = '\t' || c = '\n' || c = '\r' || c = '\x0b' || c = '\x0c'

/-- Python `str.strip()` on a character list. -/
def pyStripList (s : List Char) : List Char :=
  ((s.dropWhile isPySpace).reverse.dropWhile isPySpace).reverse

/-- Python `str.strip()`. -/
def pyStrip (s : String) : String := ⟨pyStripList s.data⟩

/-- Python `str.rstrip('：')`: drop every trailing full-width colon. -/
def pyRstripColon (s : String) : String :=
  ⟨(s.data.reverse.dropWhile (fun c => c = '：')).reverse⟩

/-- Python `s.replace('</', '')`: delete all non-overlapping occurrences of
`</`, scanning left to right. -/
def removeAngleSlash : List Char → List Char
  | [] => []
  | '<' :: '/' :: rest => removeAngleSlash rest
  | c :: rest => c :: removeAngleSlash rest

/-- Python `s.replace('>', '')`: delete every `>`. -/
def removeGt : List Char → List Char
  | [] => []
  | '>' :: rest => removeGt rest
  | c :: rest => c :: removeGt rest

/-- Python `s.split('\n')` on a character list (keeps empty segments). -/
def splitOnNewline : List Char → List (List Char)
  | [] => [[]]
  | c :: rest =>
    match splitOnNewline rest with
    | [] => [[]]
    | cur :: done => if c = '\n' then [] :: cur :: done else (c :: cur) :: done

/-- Python `s.startswith(pat)`. -/
def strStartsWith (s pat : String) : Bool := pat.data.isPrefixOf s.data

/-- Python `pat in s` (substring containment), on character lists. -/
def containsSub (pat : List Char) : List Char → Bool
  | [] => pat.isEmpty
  | c :: rest => pat.isPrefixOf (c :: rest) || containsSub pat rest

/-- Python `pat in s` on strings. -/
def strContains (s pat : String) : Bool := containsSub pat.data s.data

/-- The first whitespace-separated token of a string: Python `s.split()[0]`,
`none` when `s.split()` is empty (Python raises `IndexError` there). -/
def firstToken (s : List Char) : Option (List Char) :=
  match s.dropWhile isPySpace with
  | [] => none
  | c :: rest => some ((c :: rest).takeWhile (fun ch => !isPySpace ch))

/-- Python `s.split(pat, 1)[1]`: everything after the first occurrence of
`pat`.  Only used under an `in` guard, so the not-found case is irrelevant;
it returns `[]` there. -/
def afterFirst (pat : List Char) : List Char → List Char
  | [] => []
  | c :: rest =>
    if pat.isPrefixOf (c :: rest) then (c :: rest).drop pat.length
    else afterFirst pat rest

/-- Numeric value of a digit list, most significant first. -/
def natOfDigits : List Char → Nat
  | [] => 0
  | c :: rest => natOfDigits rest + c.toNat.sub 48 * 10 ^ rest.length

/-- Python `int(''.join(filter(str.isdigit, s)))`: keep the digit characters,
parse them; `none` when no digit survives (Python raises `ValueError` on
`int('')`). -/
def parseDigits (s : String) : Option Int :=
  match s.data.filter Char.isDigit with
  | [] => none
  | ds => some (Int.ofNat (natOfDigits ds))

/-- Python `int(s)` on an already-stripped string: optional sign followed by at
least one digit; `none` models the `ValueError` raised otherwise. -/
def parsePyInt (s : String) : Option Int :=
  let core (ds : List Char) : Option Nat :=
    if ds ≠ [] ∧ ds.all Char.isDigit then some (natOfDigits ds) else none
  match s.data with
  | '-' :: rest => (core rest).map (fun n => -(Int.ofNat n))
  | '+' :: rest => (core rest).map Int.ofNat
  | ds => (core ds).map Int.ofNat

/-! ## Python dict model

A scraped record is an open map (Python `dict`), modelled as an
insertion-ordered association list. -/

/-- A value stored in a record: Python strings, ints and `None`. -/
inductive Value where
  | str (s : String)
  | int (n : Int)
  | null
deriving DecidableEq

/-- A scraped job/project record: an insertion-ordered open map. -/
abbrev Record := List (String × Value)

/-- Python `d.get(k)`: first binding of `k`, `none` when absent. -/
def Record.get : Record → String → Option Value
  | [], _ => none
  | (k', v) :: rest, k => if k' = k then some v else Record.get rest k

/-- Python `d[k] = v`: overwrite in place if present, else append. -/
def Record.set : Record → String → Value → Record
  | [], k, v => [(k, v)]
  | (k', v') :: rest, k, v =>
    if k' = k then (k', v) :: rest else (k', v') :: Record.set rest k v

/-- Python `d.update(d2)`: assign every binding of `d2` into `d`, in order. -/
def Record.update : Record → Record → Record
  | d, [] => d
  | d, (k, v) :: rest => Record.update (d.set k v) rest

/-- Key presence, Python `k in d`. -/
def Record.hasKey (d : Record) (k : String) : Bool := (d.get k).isSome

/-- The key sequence of a record. -/
def Record.keys (d : Record) : List String := d.map Prod.fst

/-- Conditionally bind a key: the Python idiom
`if match: d[k] = f(match)` (skip when the rule produced nothing). -/
def Record.optSet (d : Record) (k : String) (o : Option Value) : Record :=
  match o with
  | some v => d.set k v
  | none => d

/-! ## `clean_url`

Both scrapers define the same `clean_url`, differing only in the base URL
prepended to relative links (`src/scrapers/sxsapi_scraper.py` lines 15-35,
`src/scrapers/yuanjisong_scraper.py` lines 18-38).  The Python body is

    url = url.split()[0].replace('</', '').replace('>', '')
    if 'javascript:' in url: return ''
    if not url.startswith('http'): url = BASE + url
    return url

`url.split()[0]` raises `IndexError` when the input has no non-whitespace
character; that raise is modelled as `none`. -/

def clean_url (base : String) (url : String) : Option String :=
  match firstToken url.data with
  | none => none
  | some tok =>
    let u : String := ⟨removeGt (removeAngleSlash tok)⟩
    if strContains u "javascript:" then some ""
    else if strStartsWith u "http" then some u
    else some (base ++ u)

/-- Base URL of the sxsapi scraper (`self.base_url`). -/
def sxsapiBase : String := "https://sxsapi.com"

/-- Base URL of the yuanjisong scraper (`self.base_url`). -/
def yuanjisongBase : String := "https://www.yuanjisong.com"

namespace Sxsapi

/-! ## sxsapi detail extraction (`SxsapiScraper.extract_project_details`)

The detail extractor runs six `re.search` patterns over the markdown plus a
line-scanning loop for the description.  The regex engine is external; its
capture results are the `SxMatches` input.  The description loop is the
repository's own string logic and is embedded directly over the markdown. -/

/-- The capture groups produced by the six `re.search` calls of
`extract_project_details` on a given markdown document (`none` = no match). -/
structure SxMatches where
  title : Option String
  price : Option String
  duration : Option String
  deadline : Option String
  skills : Option String
  coop : Option String
deriving DecidableEq

/-- The description-collecting loop of `extract_project_details`: scan stripped
lines, start after a line containing `项目描述`, stop at a marker line, append
other plain lines followed by a space. -/
def descLoop : List String → Bool → String → String
  | [], _, acc => acc
  | l :: rest, started, acc =>
    let line := pyStrip l
    if strContains line "项目描述" then descLoop rest true acc
    else if started then
      if strContains line "附件" || strContains line "报名列表" ||
         strContains line "阅读全部" || strContains line "开发者工作指南" then acc
      else if line ≠ "" && !(strStartsWith line "#") && !(strStartsWith line "![") then
        descLoop rest started (acc ++ line ++ " ")
      else descLoop rest started acc
    else descLoop rest started acc

/-- The accumulated description for a markdown document. -/
def description (markdown : String) : String :=
  descLoop ((splitOnNewline markdown.data).map fun l => (⟨l⟩ : String)) false ""

/-- `SxsapiScraper.extract_project_details` (lines 235-297): each field is
bound only when its pattern matched; the description only when non-empty. -/
def extract_project_details (m : SxMatches) (markdown : String) : Record :=
  let d : Record := []
  let d := d.optSet "title" (m.title.map fun t => .str (pyStrip t))
  let d := d.optSet "price" (m.price.map fun t => .str (pyStrip t))
  let d := d.optSet "duration" (m.duration.map .str)
  let d := d.optSet "deadline" (m.deadline.map .str)
  let desc := description markdown
  let d := d.optSet "description"
    (if desc = "" then none else some (.str (pyStrip desc)))
  let d := d.optSet "skills" (m.skills.map fun t => .str (pyStrip t))
  let d := d.optSet "cooperation" (m.coop.map fun t => .str (pyStrip t))
  d

/-! ## sxsapi discovery (`SxsapiScraper.extract_project_links`, lines 186-233)

The list page is scanned line by line.  The source classifies each line by, in
order: strip-empty / navigation-denylist check, the title+url+price heading
regex, the duration regex, the deadline regex.  A line is embedded as the
outcome of that classification; `attrs` carries the duration/deadline capture
results for a non-heading line (a line can match both patterns, in which case
the source consumes the duration match first when a project is open). -/

inductive SxLine where
  /-- Stripped-empty line, or one containing a navigation denylist phrase. -/
  | skip
  /-- The heading regex matched: captured title, url and price groups. -/
  | heading (title url price : String)
  /-- No heading match: duration / deadline capture results for the line. -/
  | attrs (dur : Option String) (ddl : Option String)
deriving DecidableEq

/-- Is this line a heading (one structural block of the list page)? -/
def isHeading : SxLine → Bool
  | .heading _ _ _ => true
  | _ => false

/-- The line loop of `extract_project_links`; `current` is `current_project`.
`none` models an uncaught `IndexError` escaping from `clean_url`. -/
def extractLinksLoop : Record → List SxLine → Option (List Record)
  | current, [] => some (if current.isEmpty then [] else [current])
  | current, line :: rest =>
    match line with
    | .skip => extractLinksLoop current rest
    | .heading t u p =>
      match clean_url sxsapiBase u with
      | none => none
      | some cu =>
        let newProj : Record :=
          [("title", .str (pyStrip t)), ("url", .str cu), ("price", .str (pyStrip p))]
        if current.isEmpty then extractLinksLoop newProj rest
        else
          match extractLinksLoop newProj rest with
          | none => none
          | some res => some (current :: res)
    | .attrs dur ddl =>
      if current.isEmpty then extractLinksLoop current rest
      else
        match dur with
        | some dv => extractLinksLoop (current.set "duration" (.str dv)) rest
        | none =>
          match ddl with
          | some dv => extractLinksLoop (current.set "deadline" (.str dv)) rest
          | none => extractLinksLoop current rest

/-- `SxsapiScraper.extract_project_links`. -/
def extract_project_links (lines : List SxLine) : Option (List Record) :=
  extractLinksLoop [] lines

/-! ## sxsapi per-candidate enrichment (`SxsapiScraper.scrape_page`, lines 149-179)

For each discovered project the detail page is fetched and, on a usable
fetch, `extract_project_details` is merged in (`project.update(details)`);
the updated project is appended only under `if details:`. -/

/-- Outcome of the detail-page fetch for one candidate. -/
inductive SxFetchOutcome where
  /-- `crawler.arun` raised; caught by the `except` branch. -/
  | exn
  /-- `detail_result` falsy (fetch produced no result object). -/
  | failed
  /-- Fetch returned a result whose markdown is `raw`, with regex capture
  results `m` for the subsequent detail extraction. -/
  | ok (raw : String) (m : SxMatches)

/-- One iteration of the detail loop in `scrape_page`: how `detailed_projects`
grows for one `project`. -/
def enrichStep (acc : List Record) (project : Record) (out : SxFetchOutcome) :
    List Record :=
  match out with
  | .exn => acc ++ [project]
  | .failed => acc ++ [project]
  | .ok raw m =>
    if raw = "" then acc ++ [project]
    else
      let details := extract_project_details m raw
      if details.isEmpty then acc
      else acc ++ [project.update details]

end Sxsapi

namespace Yuanjisong

/-! ## yuanjisong discovery (`YuanjisongScraper.extract_project_links`, lines 103-175)

BeautifulSoup is the external parser; one structural block (a
`div.div_bg_color_fff.div_padding_1.hover1.margin_bottom_1` container) is
embedded as the results of the source's element queries on it. -/

/-- One project container, as seen through the source's BeautifulSoup queries:
`titleLink` is the first `a[href*='/job/']` as `(href, text of its <b>)`;
`desc` the text of `p.margin_bottom_10`; `durationP` the text of the parent
`<p>` of `span.glyphicon-time`; `price` the text of `span.rixin-text-jobs`;
`applicants` the text of `i.i_post_num`; `employer` the first
`a[href*='/employer/']` as `(href, text of its <span>)`. -/
structure YjContainer where
  titleLink : Option (String × Option String)
  desc : Option String
  durationP : Option String
  price : Option String
  applicants : Option String
  employer : Option (String × Option String)
deriving DecidableEq

/-- The per-container body of `extract_project_links`; `none` models an
exception caught by the surrounding `except` (`continue`).  The only
raising operation in the body is `clean_url`. -/
def extractLinkOne (c : YjContainer) : Option Record :=
  let step1 : Option Record :=
    match c.titleLink with
    | none => some []
    | some (href, btext) =>
      match clean_url yuanjisongBase href with
      | none => none
      | some u =>
        let p := Record.set [] "url" (.str u)
        match btext with
        | some t => some (p.set "title" (.str (pyStrip t)))
        | none => some p
  match step1 with
  | none => none
  | some p =>
    let p :=
      match c.desc with
      | some dtext =>
        if strContains dtext "描述：" then
          p.set "description" (.str (pyStrip ⟨afterFirst "描述：".data dtext.data⟩))
        else p
      | none => p
    let p :=
      match c.durationP with
      | some dtext =>
        if strContains dtext "工时：" then
          p.set "duration" (.str (pyStrip ⟨afterFirst "工时：".data dtext.data⟩))
        else p
      | none => p
    let p :=
      match c.price with
      | some t =>
        p.set "price" (match parsePyInt (pyStrip t) with
          | some n => .int n
          | none => .int 0)
      | none => p
    let p :=
      match c.applicants with
      | some t =>
        p.set "applicants" (match parsePyInt (pyStrip t) with
          | some n => .int n
          | none => .int 0)
      | none => p
    match c.employer with
    | none => some p
    | some (href, sname) =>
      match clean_url yuanjisongBase href with
      | none => none
      | some u =>
        let p := p.set "employer_url" (.str u)
        match sname with
        | some s => some (p.set "employer_name" (.str (pyStrip s)))
        | none => some p

/-- `YuanjisongScraper.extract_project_links`: per-container extraction, a
raised exception skips the container, and a project is appended only when it
has both the `url` and `title` keys. -/
def extract_project_links : List YjContainer → List Record
  | [] => []
  | c :: rest =>
    match extractLinkOne c with
    | none => extract_project_links rest
    | some p =>
      if p.hasKey "url" && p.hasKey "title" then p :: extract_project_links rest
      else extract_project_links rest

/-! ## yuanjisong detail extraction (`YuanjisongScraper.extract_project_details`,
lines 177-238) -/

/-- One `.basic_info_row`: the text of its `.font_color_3` label element and
the text of its `li:last-child` value element. -/
structure YjBasicRow where
  label : Option String
  value : Option String
deriving DecidableEq

/-- A detail page as seen through the source's queries: the first `h2` text,
the `.basic_info_row`s, the `.mobmid p` text, and the texts of the
`.admin-content-list li span a` elements. -/
structure YjDetailPage where
  h2 : Option String
  basicRows : List YjBasicRow
  descP : Option String
  creditList : List String
deriving DecidableEq

/-- The body of the `for row in basic_info_rows` loop for one row.
`Except.error` models the `ValueError` raised by `int('')` when a matched
numeric value contains no digit (it escapes to the outer `except`, which
returns `{}`). -/
def applyRow (d : Record) (row : YjBasicRow) : Except Unit Record :=
  match row.label with
  | none => .ok d
  | some labelText =>
    let label := pyRstripColon (pyStrip labelText)
    match row.value with
    | none => .ok d
    | some valueText =>
      let v := pyStrip valueText
      if strContains label "合作方式" then .ok (d.set "cooperation_type" (.str v))
      else if strContains label "预估日薪" then
        match parseDigits v with
        | some n => .ok (d.set "daily_salary" (.int n))
        | none => .error ()
      else if strContains label "预估总价" then
        match parseDigits v with
        | some n => .ok (d.set "total_price" (.int n))
        | none => .error ()
      else if strContains label "预估工时" then
        match parseDigits v with
        | some n => .ok (d.set "duration" (.int n))
        | none => .error ()
      else if strContains label "所在区域" then .ok (d.set "location" (.str v))
      else .ok d

/-- The `for row in basic_info_rows` loop. -/
def applyRows : Record → List YjBasicRow → Except Unit Record
  | d, [] => .ok d
  | d, row :: rest =>
    match applyRow d row with
    | .ok d' => applyRows d' rest
    | .error e => .error e

/-- The body of `extract_project_details` before its outer `except` handler. -/
def extractDetailsCore (page : YjDetailPage) : Except Unit Record :=
  let title : Option String := page.h2.map pyStrip
  let d : Record :=
    [("title", match title with | some t => .str t | none => .null)]
  match applyRows d page.basicRows with
  | .error e => .error e
  | .ok d =>
    let d :=
      match page.descP with
      | some t => d.set "description" (.str (pyStrip t))
      | none => d
    let d :=
      match page.creditList with
      | a :: b :: c :: _ =>
        match parsePyInt (pyStrip a), parsePyInt (pyStrip b), parsePyInt (pyStrip c) with
        | some x, some y, some z =>
          ((d.set "employer_projects" (.int x)).set "employer_reviews" (.int y)).set
            "employer_complaints" (.int z)
        | _, _, _ =>
          ((d.set "employer_projects" (.int 0)).set "employer_reviews" (.int 0)).set
            "employer_complaints" (.int 0)
      | _ => d
    .ok d

/-- `YuanjisongScraper.extract_project_details`: the outer
`except Exception: return {}` handler. -/
def extract_project_details (page : YjDetailPage) : Record :=
  match extractDetailsCore page with
  | .ok d => d
  | .error _ => []

/-! ## yuanjisong per-candidate enrichment (`YuanjisongScraper._scrape_detail_page`,
lines 463-519) -/

/-- Outcome of the detail-page fetch for one candidate: failure, an exception
(including the 30 s per-candidate `asyncio.wait_for` timeout), or success with
the raw html string and its parsed view. -/
inductive YjFetchOutcome where
  | failed
  | exn
  | ok (raw : String) (page : YjDetailPage)

/-- `YuanjisongScraper._scrape_detail_page`: on any failure path the candidate
itself is returned; on success with non-empty html and non-empty extracted
details, the details are merged into the candidate in place. -/
def scrape_detail_page (project : Record) (out : YjFetchOutcome) : Record :=
  match out with
  | .failed => project
  | .exn => project
  | .ok raw page =>
    if raw = "" then project
    else
      let details := extract_project_details page
      if details.isEmpty then project
      else project.update details

/-! ## yuanjisong page-level fan-out (`YuanjisongScraper.scrape_page`,
lines 426-452) -/

/-- The aggregate deadline applied to the whole enrichment fan-out of one
page: `timeout=len(projects) * 10` seconds. -/
def aggregateTimeout (n : Nat) : Nat := n * 10

/-- The `except asyncio.TimeoutError` recovery loop of `scrape_page`: every
candidate whose URL is not already represented in `detailed` is appended in
its discovery-only form. -/
def timeoutRecovery : List Record → List Record → List Record
  | [], detailed => detailed
  | p :: rest, detailed =>
    if detailed.any (fun d => d.get "url" = p.get "url") then
      timeoutRecovery rest detailed
    else timeoutRecovery rest (detailed ++ [p])

/-- The page result list produced when the aggregate deadline expires: the
`asyncio.gather` results are discarded (`detailed_projects` is still empty),
and the recovery loop repopulates it from the candidate list. -/
def pageResultOnTimeout (projects : List Record) : List Record :=
  timeoutRecovery projects []

end Yuanjisong

/-! ## Pagination driver (`scrape`, sxsapi lines 299-350 / yuanjisong lines 521-572)

Both scrapers run the identical loop

    all_jobs = []; page = 1
    while True:
        projects = await self.scrape_page(page)   # saves this page's results
        if not projects: break
        all_jobs.extend(projects)
        if max_pages and page >= max_pages: break
        page += 1
    json.dump(all_jobs, output_file)

`scrape_page page` is abstracted as `source page` (its returned, already
enriched listings); its internal `self.save_results(detailed_projects)` call
overwrites the platform's single JSON file with exactly that list
(`BaseScraper.save_results`, lines 120-131).  The state records the file's
current contents, each file write (`snapshots`), and the pages fetched.  The
`while True` loop is driven by a fuel parameter; theorems hold for any
sufficient fuel. -/

structure ScrapeState where
  allJobs : List Record
  file : List Record
  snapshots : List (List Record)
  visited : List Nat
deriving DecidableEq

/-- The empty state before the loop. -/
def initState : ScrapeState := ⟨[], [], [], []⟩

/-- The pagination loop body, fuel-indexed. -/
def scrapeAux (source : Nat → List Record) (maxPages : Nat) :
    Nat → Nat → ScrapeState → ScrapeState
  | 0, _, st => st
  | fuel + 1, page, st =>
    let projects := source page
    let st1 : ScrapeState :=
      ⟨st.allJobs, projects, st.snapshots ++ [projects], st.visited ++ [page]⟩
    if projects = [] then st1
    else
      let st2 : ScrapeState :=
        ⟨st1.allJobs ++ projects, st1.file, st1.snapshots, st1.visited⟩
      if maxPages ≠ 0 ∧ page ≥ maxPages then st2
      else scrapeAux source maxPages fuel (page + 1) st2

/-- `scrape(max_pages)`: run the loop from page 1, then write the accumulated
`all_jobs` list to the platform's output file. -/
def scrape (source : Nat → List Record) (maxPages fuel : Nat) : ScrapeState :=
  let st := scrapeAux source maxPages fuel 1 initState
  ⟨st.allJobs, st.allJobs, st.snapshots, st.visited⟩

/-- The consecutive page numbers `p, p+1, ..., p+n-1`. -/
def pagesFrom : Nat → Nat → List Nat
  | _, 0 => []
  | p, n + 1 => p :: pagesFrom (p + 1) n

/-! ## Low-level request helper (`BaseScraper._make_request`, lines 87-118)

    for attempt in range(3):
        try:
            ... session.get(url) ...
            if response.status == 200: return await response.text()
        except Exception:
            await self.close_session()      # tear down; rebuilt next attempt
        if attempt < 2:
            time.sleep(2 * (attempt + 1))
    return None

The transport is external: the outcome of each attempt is an input. -/

/-- Outcome of one attempt: a 200 response with a body, a non-200 status, or a
raised transport exception with its message. -/
inductive AttemptResult where
  | ok (body : String)
  | badStatus (code : Nat)
  | exn (msg : String)
deriving DecidableEq

/-- Is the outcome a raised transport exception? -/
def AttemptResult.isExn : AttemptResult → Bool
  | .exn _ => true
  | _ => false

/-- Observable trace of `_make_request`: attempts made, back-off sleeps
performed (seconds, in order), and session teardowns (`close_session` calls). -/
structure ReqTrace where
  attempts : Nat
  sleeps : List Nat
  teardowns : Nat
deriving DecidableEq

/-- The `for attempt in range(3)` loop of `_make_request`. -/
def makeRequestLoop (o : Nat → AttemptResult) :
    List Nat → ReqTrace → Option String × ReqTrace
  | [], tr => (none, tr)
  | attempt :: rest, tr =>
    let tr1 : ReqTrace := ⟨tr.attempts + 1, tr.sleeps, tr.teardowns⟩
    match o attempt with
    | .ok body => (some body, tr1)
    | .badStatus _ =>
      let tr2 : ReqTrace :=
        if attempt < 2 then ⟨tr1.attempts, tr1.sleeps ++ [2 * (attempt + 1)], tr1.teardowns⟩
        else tr1
      makeRequestLoop o rest tr2
    | .exn _ =>
      let tr2 : ReqTrace := ⟨tr1.attempts, tr1.sleeps, tr1.teardowns + 1⟩
      let tr3 : ReqTrace :=
        if attempt < 2 then ⟨tr2.attempts, tr2.sleeps ++ [2 * (attempt + 1)], tr2.teardowns⟩
        else tr2
      makeRequestLoop o rest tr3

/-- `BaseScraper._make_request`, given the per-attempt transport outcomes. -/
def make_request (o : Nat → AttemptResult) : Option String × ReqTrace :=
  makeRequestLoop o (List.range 3) ⟨0, [], 0⟩

/-! C8 helpers. -/

/-- Did the attempt return a 200 response? -/
def AttemptResult.isOk : AttemptResult → Bool
  | .ok _ => true
  | _ => false

/-- A one-nonempty-page source used to witness the `max_pages = 0` behaviour. -/
def w9src : Nat → List Record :=
  fun p => if p = 1 then [[("title", Value.str "a"), ("url", Value.str "u")]] else []

/-- A page source whose page 3 is empty, used to witness C3. -/
def w3src : Nat → List Record :=
  fun p =>
    if p = 1 then [[("title", Value.str "a"), ("url", Value.str "u1")]]
    else if p = 2 then [[("title", Value.str "b"), ("url", Value.str "u2")]]
    else []

/-! C2: per-page persistence. -/

/-- First page's single listing in the C2 counterexample. -/
def c2rec1 : Record := [("title", Value.str "a"), ("url", Value.str "u1")]

/-- Second page's single listing in the C2 counterexample. -/
def c2rec2 : Record := [("title", Value.str "b"), ("url", Value.str "u2")]

/-- Two-page source for the C2 counterexample. -/
def c2src : Nat → List Record :=
  fun p => if p = 1 then [c2rec1] else if p = 2 then [c2rec2] else []

theorem Record.get_set_self (d : Record) (k : String) (v : Value) :
    (d.set k v).get k = some v := by
  induction d with
  | nil => simp [Record.set, Record.get]
  | cons hd tl ih =>
    obtain ⟨k', v'⟩ := hd
    by_cases h : k' = k <;> simp [Record.set, Record.get, h, ih]

theorem Record.get_set_ne (d : Record) (k : String) (v : Value) (k' : String)
    (h : k' ≠ k) : (d.set k v).get k' = d.get k' := by
  induction d with
  | nil => simp [Record.set, Record.get, Ne.symm h]
  | cons hd tl ih =>
    obtain ⟨k₀, v₀⟩ := hd
    by_cases h0 : k₀ = k
    · subst h0
      simp [Record.set, Record.get, Ne.symm h]
    · by_cases h1 : k₀ = k'
      · subst h1
        simp [Record.set, Record.get, h0]
      · simp [Record.set, Record.get, h0, h1, ih]

theorem Record.hasKey_set (d : Record) (k : String) (v : Value) (k' : String) :
    (d.set k v).hasKey k' = (k' = k || d.hasKey k') := by
  by_cases h : k' = k
  · subst h; simp [Record.hasKey, Record.get_set_self]
  · simp [Record.hasKey, Record.get_set_ne d k v k' h, h]

theorem Record.hasKey_optSet_self (d : Record) (k : String) (o : Option Value) :
    (d.optSet k o).hasKey k = (o.isSome || d.hasKey k) := by
  cases o with
  | none => simp [Record.optSet]
  | some v => simp [Record.optSet, Record.hasKey_set]

theorem Record.hasKey_optSet_ne (d : Record) (k : String) (o : Option Value)
    (k' : String) (h : k' ≠ k) : (d.optSet k o).hasKey k' = d.hasKey k' := by
  cases o with
  | none => simp [Record.optSet]
  | some v => simp [Record.optSet, Record.hasKey, Record.get_set_ne d k v k' h]

theorem Record.hasKey_optSet (d : Record) (k : String) (o : Option Value)
    (k' : String) :
    (d.optSet k o).hasKey k' =
      (if k' = k then (o.isSome || d.hasKey k') else d.hasKey k') := by
  by_cases h : k' = k
  · subst h
    simp [Record.hasKey_optSet_self]
  · simp [h, Record.hasKey_optSet_ne d k o k' h]

theorem Record.hasKey_nil (k : String) : Record.hasKey [] k = false := rfl

theorem Record.hasKey_update_left (d d' : Record) (k : String)
    (h : d.hasKey k = true) : (d.update d').hasKey k = true := by
  induction d' generalizing d with
  | nil => simpa [Record.update] using h
  | cons hd tl ih =>
    obtain ⟨k₀, v₀⟩ := hd
    apply ih
    by_cases h0 : k = k₀
    · subst h0; simp [Record.hasKey, Record.get_set_self]
    · simpa [Record.hasKey, Record.get_set_ne d k₀ v₀ k h0] using h

theorem Record.get_update_not_mem (d d' : Record) (k : String)
    (h : k ∉ d'.keys) : (d.update d').get k = d.get k := by
  induction d' generalizing d with
  | nil => simp [Record.update]
  | cons hd tl ih =>
    obtain ⟨k₀, v₀⟩ := hd
    simp only [Record.keys, List.map_cons, List.mem_cons] at h
    push_neg at h
    rw [Record.update, ih _ (by simpa [Record.keys] using h.2),
      Record.get_set_ne d k₀ v₀ k h.1]

theorem Record.get_update_right (d d' : Record) (k : String) (v : Value)
    (hnd : d'.keys.Nodup) (h : d'.get k = some v) :
    (d.update d').get k = some v := by
  induction d' generalizing d with
  | nil => simp [Record.get] at h
  | cons hd tl ih =>
    obtain ⟨k₀, v₀⟩ := hd
    simp only [Record.keys, List.map_cons, List.nodup_cons] at hnd
    by_cases h0 : k₀ = k
    · subst h0
      simp [Record.get] at h
      subst h
      rw [Record.update,
        Record.get_update_not_mem _ _ _ (by simpa [Record.keys] using hnd.1),
        Record.get_set_self]
    · simp only [Record.get, if_neg h0] at h
      rw [Record.update]
      exact ih (d.set k₀ v₀) hnd.2 h

/-! ## Claim theorems -/

/-- **C10.** `clean_url` is partial exactly at the empty boundary: any input
with a non-whitespace character returns normally (`some`), while an empty or
whitespace-only input hits `url.split()[0]` on an empty list — the
`IndexError`, modelled as `none`. -/
theorem C10_clean_url_empty_boundary (base url : String) :
    ((∃ c ∈ url.data, isPySpace c = false) → (clean_url base url).isSome = true) ∧
    ((∀ c ∈ url.data, isPySpace c = true) → clean_url base url = none) := by
  constructor
  · rintro ⟨c, hc, hns⟩
    rcases h' : url.data.dropWhile isPySpace with _ | ⟨a, rest⟩
    · rw [List.dropWhile_eq_nil_iff] at h'
      exact absurd (h' c hc) (by simp [hns])
    · simp only [clean_url, firstToken, h']
      split
      · simp
      · split <;> simp
  · intro hall
    have h' : url.data.dropWhile isPySpace = [] := by
      rw [List.dropWhile_eq_nil_iff]
      exact hall
    simp [clean_url, firstToken, h']

theorem C10_witness :
    (clean_url yuanjisongBase "/job/1").isSome = true ∧
    clean_url sxsapiBase "   " = none :=
  ⟨(C10_clean_url_empty_boundary yuanjisongBase "/job/1").1 (by decide),
   (C10_clean_url_empty_boundary sxsapiBase "   ").2 (by decide)⟩

/-- **C6.** Enrichment is a monotonic merge: every key of the candidate
survives enrichment (whatever the fetch outcome), and for every key bound by
the detail-extraction result the merged record carries the detail value. -/
theorem C6_enrichment_monotonic_merge (c d : Record) (hnd : d.keys.Nodup) :
    (∀ (out : Yuanjisong.YjFetchOutcome) (k : String),
       c.hasKey k = true → (Yuanjisong.scrape_detail_page c out).hasKey k = true) ∧
    (∀ (k : String) (v : Value), d.get k = some v → (c.update d).get k = some v) := by
  constructor
  · intro out k hk
    cases out with
    | failed => exact hk
    | exn => exact hk
    | ok raw page =>
      by_cases hr : raw = ""
      · simpa [Yuanjisong.scrape_detail_page, hr] using hk
      · by_cases hd : (Yuanjisong.extract_project_details page).isEmpty
        · simpa [Yuanjisong.scrape_detail_page, hr, hd] using hk
        · simpa [Yuanjisong.scrape_detail_page, hr, hd] using
            Record.hasKey_update_left c (Yuanjisong.extract_project_details page) k hk
  · intro k v h
    exact Record.get_update_right c d k v hnd h

theorem C6_witness :
    (Yuanjisong.scrape_detail_page [("title", Value.str "t")] .failed).hasKey "title" = true ∧
    (Record.update [("title", Value.str "t")]
        [("price", Value.str "5千")]).get "price" = some (Value.str "5千") :=
  ⟨(C6_enrichment_monotonic_merge [("title", Value.str "t")] [("price", Value.str "5千")]
      (by decide)).1 .failed "title" (by decide),
   (C6_enrichment_monotonic_merge [("title", Value.str "t")] [("price", Value.str "5千")]
      (by decide)).2 "price" (Value.str "5千") (by decide)⟩

/-! C4 helpers. -/

theorem timeoutRecovery_superset (ps : List Record) :
    ∀ detailed : List Record, detailed ⊆ Yuanjisong.timeoutRecovery ps detailed := by
  induction ps with
  | nil => intro detailed; simp [Yuanjisong.timeoutRecovery]
  | cons p rest ih =>
    intro detailed
    simp only [Yuanjisong.timeoutRecovery]
    split
    · exact ih detailed
    · exact List.Subset.trans (List.subset_append_left detailed [p]) (ih (detailed ++ [p]))

theorem timeoutRecovery_covers (ps : List Record) :
    ∀ (detailed : List Record) (p : Record), p ∈ ps →
      ∃ d ∈ Yuanjisong.timeoutRecovery ps detailed,
        d.get "url" = p.get "url" ∧ (d ∈ detailed ∨ d ∈ ps) := by
  induction ps with
  | nil => intro _ p hp; simp at hp
  | cons q rest ih =>
    intro detailed p hp
    rcases List.mem_cons.mp hp with rfl | hp'
    · simp only [Yuanjisong.timeoutRecovery]
      split
      · rename_i hany
        rw [List.any_eq_true] at hany
        obtain ⟨d, hd, hdq⟩ := hany
        rw [decide_eq_true_eq] at hdq
        exact ⟨d, timeoutRecovery_superset rest detailed hd, hdq, Or.inl hd⟩
      · refine ⟨p, timeoutRecovery_superset rest (detailed ++ [p]) (by simp), rfl, ?_⟩
        exact Or.inr (List.mem_cons_self p rest)
    · simp only [Yuanjisong.timeoutRecovery]
      split
      · obtain ⟨d, hdm, hdu, hdw⟩ := ih detailed p hp'
        exact ⟨d, hdm, hdu, hdw.imp id (List.mem_cons_of_mem q)⟩
      · obtain ⟨d, hdm, hdu, hdw⟩ := ih (detailed ++ [q]) p hp'
        refine ⟨d, hdm, hdu, ?_⟩
        rcases hdw with hmem | hmem
        · rcases List.mem_append.mp hmem with h | h
          · exact Or.inl h
          · simp only [List.mem_singleton] at h
            exact Or.inr (by simp [h])
        · exact Or.inr (List.mem_cons_of_mem q hmem)

/-- **C4.** When the aggregate enrichment deadline (`10 s × candidate count`)
expires on a page, every discovered candidate is still represented in the
page's result list by a record with its URL, and everything in that list is
one of the candidates themselves (discovery-only, partial form). -/
theorem C4_timeout_keeps_partial_candidates (projects : List Record) (p : Record)
    (hp : p ∈ projects) :
    (∃ d ∈ Yuanjisong.pageResultOnTimeout projects,
        d.get "url" = p.get "url" ∧ d ∈ projects) ∧
    Yuanjisong.aggregateTimeout projects.length = 10 * projects.length := by
  constructor
  · obtain ⟨d, hdm, hdu, hdw⟩ := timeoutRecovery_covers projects [] p hp
    refine ⟨d, hdm, hdu, ?_⟩
    rcases hdw with h | h
    · simp at h
    · exact h
  · exact Nat.mul_comm projects.length 10

theorem C4_witness :
    ∃ d ∈ Yuanjisong.pageResultOnTimeout [[("url", Value.str "u"), ("title", Value.str "t")]],
      d.get "url" = Record.get [("url", Value.str "u"), ("title", Value.str "t")] "url" ∧
      d ∈ [[("url", Value.str "u"), ("title", Value.str "t")]] :=
  (C4_timeout_keeps_partial_candidates [[("url", Value.str "u"), ("title", Value.str "t")]]
    [("url", Value.str "u"), ("title", Value.str "t")] (by decide)).1

/-- **C8 (amended).** `_make_request` makes exactly the 3 attempts of
`range(3)` when none succeeds, sleeps `2 * (attempt + 1)` seconds after each
failed attempt except the last (2 s then 4 s), tears the session down once per
transport exception, and finally returns the bare failure sentinel `None`
(carrying no error information) instead of raising. -/
theorem C8_retry_policy (o : Nat → AttemptResult)
    (hfail : ∀ a, a < 3 → (o a).isOk = false) :
    (make_request o).1 = none ∧
    (make_request o).2.attempts = 3 ∧
    (make_request o).2.sleeps = [2, 4] ∧
    (make_request o).2.teardowns =
      ((List.range 3).filter fun a => (o a).isExn).length := by
  have hr : List.range 3 = [0, 1, 2] := by decide
  have f0 := hfail 0 (by omega)
  have f1 := hfail 1 (by omega)
  have f2 := hfail 2 (by omega)
  rcases h0 : o 0 with b0 | c0 | m0 <;>
    rcases h1 : o 1 with b1 | c1 | m1 <;>
    rcases h2 : o 2 with b2 | c2 | m2 <;>
    simp_all [make_request, hr, makeRequestLoop, AttemptResult.isExn,
      AttemptResult.isOk]

/-- **C8 counterexample.** The return value on exhaustion is the same `none`
whatever the last error was: it cannot carry the last error. -/
theorem C8_counterexample_sentinel_carries_no_error :
    make_request (fun _ => .exn "connection reset") =
      make_request (fun _ => .exn "dns lookup failed") ∧
    (make_request (fun _ => .exn "connection reset")).1 = none := by
  decide

theorem C8_witness :
    (make_request (fun _ => AttemptResult.badStatus 500)).1 = none ∧
    (make_request (fun _ => AttemptResult.badStatus 500)).2.attempts = 3 ∧
    (make_request (fun _ => AttemptResult.badStatus 500)).2.sleeps = [2, 4] :=
  ⟨(C8_retry_policy (fun _ => AttemptResult.badStatus 500) (by decide)).1,
   (C8_retry_policy (fun _ => AttemptResult.badStatus 500) (by decide)).2.1,
   (C8_retry_policy (fun _ => AttemptResult.badStatus 500) (by decide)).2.2.1⟩

/-- **C9.** `max_pages = 0` never triggers the page-cap check
(`if max_pages and page >= max_pages` is falsy for `0`): starting anywhere,
with any fuel large enough, the loop visits exactly the consecutive pages up
to and including the first page with empty discovery — 0 is "unlimited",
not "zero pages". -/
theorem C9_max_pages_zero_is_unlimited (source : Nat → List Record)
    (fuel k page : Nat) (st : ScrapeState) (hk : k < fuel)
    (hne : ∀ j, j < k → source (page + j) ≠ [])
    (he : source (page + k) = []) :
    (scrapeAux source 0 fuel page st).visited = st.visited ++ pagesFrom page (k + 1) := by
  induction k generalizing fuel page st with
  | zero =>
    obtain ⟨f, rfl⟩ : ∃ f, fuel = f + 1 := ⟨fuel - 1, by omega⟩
    simp only [Nat.add_zero] at he
    simp [scrapeAux, he, pagesFrom]
  | succ k ih =>
    obtain ⟨f, rfl⟩ : ∃ f, fuel = f + 1 := ⟨fuel - 1, by omega⟩
    have h0 : source page ≠ [] := by
      have := hne 0 (by omega)
      simpa using this
    have hne' : ∀ j, j < k → source (page + 1 + j) ≠ [] := by
      intro j hj
      rw [show page + 1 + j = page + (j + 1) by omega]
      exact hne (j + 1) (by omega)
    have he' : source (page + 1 + k) = [] := by
      rw [show page + 1 + k = page + (k + 1) by omega]
      exact he
    have hrec := ih f (page + 1)
      ⟨st.allJobs ++ source page, source page,
        st.snapshots ++ [source page], st.visited ++ [page]⟩
      (by omega) hne' he'
    have step : scrapeAux source 0 (f + 1) page st =
        scrapeAux source 0 f (page + 1)
          ⟨st.allJobs ++ source page, source page,
            st.snapshots ++ [source page], st.visited ++ [page]⟩ := by
      simp [scrapeAux, h0]
    rw [step, hrec]
    simp [pagesFrom]

theorem C9_witness :
    (scrapeAux w9src 0 3 1 initState).visited = initState.visited ++ pagesFrom 1 2 :=
  C9_max_pages_zero_is_unlimited w9src 3 1 1 initState (by omega)
    (by decide) (by decide)

/-- **C3.** With `max_pages = 10` and page 3 discovering nothing (pages 1 and 2
non-empty), the loop fetches exactly pages 1, 2 and 3 — never page 4 — and both
the returned list and the final file write are the concatenation of pages 1
and 2 only. -/
theorem C3_stops_after_first_empty_page (source : Nat → List Record) (fuel : Nat)
    (h1 : source 1 ≠ []) (h2 : source 2 ≠ []) (h3 : source 3 = [])
    (hf : 3 ≤ fuel) :
    (scrapeAux source 10 fuel 1 initState).visited = [1, 2, 3] ∧
    (scrape source 10 fuel).allJobs = source 1 ++ source 2 ∧
    (scrape source 10 fuel).file = source 1 ++ source 2 := by
  obtain ⟨f, rfl⟩ : ∃ f, fuel = f + 1 + 1 + 1 := ⟨fuel - 3, by omega⟩
  have step : scrapeAux source 10 (f + 1 + 1 + 1) 1 initState =
      ⟨source 1 ++ source 2, [],
        [source 1, source 2, []], [1, 2, 3]⟩ := by
    simp [scrapeAux, initState, h1, h2, h3]
  refine ⟨?_, ?_, ?_⟩ <;> simp [scrape, step]

theorem C3_witness :
    (scrapeAux w3src 10 5 1 initState).visited = [1, 2, 3] ∧
    (scrape w3src 10 5).allJobs = w3src 1 ++ w3src 2 ∧
    (scrape w3src 10 5).file = w3src 1 ++ w3src 2 :=
  C3_stops_after_first_empty_page w3src 5 (by decide) (by decide) (by decide)
    (by omega)

/-- **C2 counterexample.** Running two non-empty pages (`max_pages = 2`), the
file writes performed by the per-page persistence step are `[c2rec1]` then
`[c2rec2]`: after the two-page prefix the file holds only page 2's listings,
not the concatenation of pages 1 and 2 — the per-page persistence does not
write the accumulated sequence. -/
theorem C2_counterexample_page_overwrite :
    (scrapeAux c2src 2 5 1 initState).snapshots = [[c2rec1], [c2rec2]] ∧
    (scrapeAux c2src 2 5 1 initState).file = [c2rec2] ∧
    [c2rec2] ≠ [c2rec1] ++ [c2rec2] := by
  decide

/-- C2 helper: along the loop, every `save_results` call writes exactly the
listings of the page just fetched. -/
theorem scrapeAux_snapshots_eq (source : Nat → List Record) (mp : Nat) :
    ∀ (fuel page : Nat) (st : ScrapeState),
      st.snapshots = st.visited.map source →
      (scrapeAux source mp fuel page st).snapshots =
        ((scrapeAux source mp fuel page st).visited).map source := by
  intro fuel
  induction fuel with
  | zero => intro page st h; simpa [scrapeAux] using h
  | succ f ih =>
    intro page st h
    have h1 : (ScrapeState.mk st.allJobs (source page)
        (st.snapshots ++ [source page]) (st.visited ++ [page])).snapshots =
        (ScrapeState.mk st.allJobs (source page)
          (st.snapshots ++ [source page]) (st.visited ++ [page])).visited.map source := by
      simp [h]
    simp only [scrapeAux]
    split
    · exact h1
    · split
      · simpa using h1
      · exact ih (page + 1) _ (by simpa using h1)

/-- **C2 (amended).** Each invocation of the per-page persistence step
overwrites the platform's single JSON file with exactly the listings of the
page just processed (so the file after any prefix of pages holds only the most
recent page's listings); the entire accumulated sequence is written once, by
the final dump after pagination ends. -/
theorem C2_per_page_persistence (source : Nat → List Record) (mp fuel : Nat) :
    (scrapeAux source mp fuel 1 initState).snapshots =
      ((scrapeAux source mp fuel 1 initState).visited).map source ∧
    (scrape source mp fuel).file = (scrapeAux source mp fuel 1 initState).allJobs :=
  ⟨scrapeAux_snapshots_eq source mp fuel 1 initState (by simp [initState]), rfl⟩

/-- **C1 (bug evaluation).** In `SxsapiScraper.scrape_page`, a candidate whose
detail page fetches successfully (non-empty markdown `"hello"`) but yields an
empty extraction result is silently dropped from `detailed_projects` (the
append is guarded by `if details:`), although every failure branch keeps the
candidate and `YuanjisongScraper._scrape_detail_page` returns the candidate in
the same situation. -/
theorem C1_sxsapi_drops_candidate_on_empty_extraction :
    Sxsapi.extract_project_details ⟨none, none, none, none, none, none⟩ "hello" = [] ∧
    Sxsapi.enrichStep []
      [("title", Value.str "t"), ("url", Value.str "https://sxsapi.com/post/1")]
      (.ok "hello" ⟨none, none, none, none, none, none⟩) = [] ∧
    Sxsapi.enrichStep []
      [("title", Value.str "t"), ("url", Value.str "https://sxsapi.com/post/1")]
      .failed =
      [[("title", Value.str "t"), ("url", Value.str "https://sxsapi.com/post/1")]] ∧
    Yuanjisong.scrape_detail_page [("title", Value.str "t"), ("url", Value.str "u")]
      (.ok "<html>" ⟨none, [], none, []⟩) =
      [("title", Value.null), ("url", Value.str "u")] := by
  decide

/-- **C5 counterexample.** The yuanjisong detail extractor binds `title` to
`None` when no `h2` heading matched — the field is not omitted, it is bound to
a null placeholder. -/
theorem C5_counterexample_title_bound_to_null :
    Yuanjisong.extract_project_details ⟨none, [], none, []⟩ = [("title", Value.null)] ∧
    (Yuanjisong.extract_project_details ⟨none, [], none, []⟩).get "title" =
      some Value.null := by
  decide

/-- The body of the yuanjisong basic-info row loop never touches keys outside
its five field names: for any other key, a successful `applyRow` leaves the
binding unchanged. -/
theorem yj_applyRow_get_preserved (row : Yuanjisong.YjBasicRow) (d d' : Record)
    (k : String)
    (hk : k ≠ "cooperation_type" ∧ k ≠ "daily_salary" ∧ k ≠ "total_price" ∧
      k ≠ "duration" ∧ k ≠ "location")
    (h : Yuanjisong.applyRow d row = .ok d') : d'.get k = d.get k := by
  unfold Yuanjisong.applyRow at h
  rcases hl : row.label with _ | lt <;> simp only [hl] at h
  · injection h with h2
    subst h2
    rfl
  · rcases hv : row.value with _ | vt <;> simp only [hv] at h
    · injection h with h2
      subst h2
      rfl
    · repeat' split at h
      all_goals
        first
          | exact (Except.noConfusion h)
          | (injection h with h2
             subst h2
             first
               | rfl
               | exact Record.get_set_ne d _ _ k hk.1
               | exact Record.get_set_ne d _ _ k hk.2.1
               | exact Record.get_set_ne d _ _ k hk.2.2.1
               | exact Record.get_set_ne d _ _ k hk.2.2.2.1
               | exact Record.get_set_ne d _ _ k hk.2.2.2.2)

/-- The whole `for row in basic_info_rows` loop preserves bindings of keys
outside its five field names. -/
theorem yj_applyRows_get_preserved (rows : List Yuanjisong.YjBasicRow)
    (k : String)
    (hk : k ≠ "cooperation_type" ∧ k ≠ "daily_salary" ∧ k ≠ "total_price" ∧
      k ≠ "duration" ∧ k ≠ "location") :
    ∀ d d', Yuanjisong.applyRows d rows = .ok d' → d'.get k = d.get k := by
  induction rows with
  | nil =>
    intro d d' h
    simp only [Yuanjisong.applyRows] at h
    injection h with h2
    subst h2
    rfl
  | cons row rest ih =>
    intro d d' h
    simp only [Yuanjisong.applyRows] at h
    rcases hr : Yuanjisong.applyRow d row with e | d1 <;> simp only [hr] at h
    · exact (Except.noConfusion h)
    · rw [ih d1 d' h, yj_applyRow_get_preserved row d d1 k hk hr]

/-- Whenever the body of `extract_project_details` completes without raising,
the returned record carries the unconditional `title` binding — the stripped
`h2` text, or `None` when no heading matched. -/
theorem yj_core_binds_title (page : Yuanjisong.YjDetailPage) (d : Record)
    (h : Yuanjisong.extractDetailsCore page = .ok d) :
    d.get "title" =
      some (match page.h2 with
        | some t => Value.str (pyStrip t)
        | none => Value.null) := by
  have hk : "title" ≠ "cooperation_type" ∧ "title" ≠ "daily_salary" ∧
      "title" ≠ "total_price" ∧ "title" ≠ "duration" ∧ "title" ≠ "location" := by
    refine ⟨?_, ?_, ?_, ?_, ?_⟩ <;> decide
  unfold Yuanjisong.extractDetailsCore at h
  rcases hh : page.h2 with _ | t <;>
    simp only [hh, Option.map_none', Option.map_some'] at h ⊢
  · rcases hr : Yuanjisong.applyRows [("title", Value.null)] page.basicRows
        with e | d1 <;> simp only [hr] at h
    · exact (Except.noConfusion h)
    · injection h with h2
      subst h2
      have hd1 : d1.get "title" = some Value.null := by
        rw [yj_applyRows_get_preserved page.basicRows "title" hk
            [("title", Value.null)] d1 hr]
        rfl
      repeat' split
      all_goals
        (repeat rw [Record.get_set_ne _ _ _ _ (by decide)]
         exact hd1)
  · rcases hr : Yuanjisong.applyRows [("title", Value.str (pyStrip t))]
        page.basicRows with e | d1 <;> simp only [hr] at h
    · exact (Except.noConfusion h)
    · injection h with h2
      subst h2
      have hd1 : d1.get "title" = some (Value.str (pyStrip t)) := by
        rw [yj_applyRows_get_preserved page.basicRows "title" hk
            [("title", Value.str (pyStrip t))] d1 hr]
        rfl
      repeat' split
      all_goals
        (repeat rw [Record.get_set_ne _ _ _ _ (by decide)]
         exact hd1)

/-- `extract_project_details` either returns the empty record (the outer
`except` swallowed a raise) or a record binding `title`. -/
theorem yj_extract_title_dichotomy (page : Yuanjisong.YjDetailPage) :
    Yuanjisong.extract_project_details page = [] ∨
    (Yuanjisong.extract_project_details page).get "title" =
      some (match page.h2 with
        | some t => Value.str (pyStrip t)
        | none => Value.null) := by
  unfold Yuanjisong.extract_project_details
  rcases hc : Yuanjisong.extractDetailsCore page with e | d <;> simp only [hc]
  · left
    first
      | rfl
      | trivial
  · exact Or.inr (yj_core_binds_title page d hc)

/-- **C5 (amended).** The sxsapi detail extractor omits every field whose rule
produced no match (each key is present exactly when its pattern matched, the
description exactly when the collected text is non-empty).  The yuanjisong
detail extractor violates the omission rule for `title`: its result is either
the empty record — a digit-less numeric field makes `int('')` raise and the
outer handler discards everything, as the concrete `预估日薪`/`面议` row shows —
or a record that binds `title`, to the stripped `h2` text when the heading
matched and to `None` (a null placeholder) when it did not; when no other rule
matches, the output is exactly that single `title` binding. -/
theorem C5_unmatched_fields_are_omitted (m : Sxsapi.SxMatches) (md : String)
    (page : Yuanjisong.YjDetailPage) (h2 : Option String) :
    (Sxsapi.extract_project_details m md).hasKey "title" = m.title.isSome ∧
    (Sxsapi.extract_project_details m md).hasKey "price" = m.price.isSome ∧
    (Sxsapi.extract_project_details m md).hasKey "duration" = m.duration.isSome ∧
    (Sxsapi.extract_project_details m md).hasKey "deadline" = m.deadline.isSome ∧
    (Sxsapi.extract_project_details m md).hasKey "description" =
      (Sxsapi.description md != "") ∧
    (Sxsapi.extract_project_details m md).hasKey "skills" = m.skills.isSome ∧
    (Sxsapi.extract_project_details m md).hasKey "cooperation" = m.coop.isSome ∧
    (Yuanjisong.extract_project_details page = [] ∨
     (Yuanjisong.extract_project_details page).get "title" =
       some (match page.h2 with
         | some t => Value.str (pyStrip t)
         | none => Value.null)) ∧
    Yuanjisong.extract_project_details
        ⟨some "标题", [⟨some "预估日薪：", some "面议"⟩], none, []⟩ = [] ∧
    (Yuanjisong.extract_project_details ⟨h2, [], none, []⟩).keys = ["title"] := by
  refine ⟨?_, ?_, ?_, ?_, ?_, ?_, ?_, ?_, ?_, ?_⟩
  · rcases h : m.title with _ | t <;>
      simp [Sxsapi.extract_project_details, Record.hasKey_optSet, Record.hasKey_nil, h]
  · rcases h : m.price with _ | t <;>
      simp [Sxsapi.extract_project_details, Record.hasKey_optSet, Record.hasKey_nil, h]
  · rcases h : m.duration with _ | t <;>
      simp [Sxsapi.extract_project_details, Record.hasKey_optSet, Record.hasKey_nil, h]
  · rcases h : m.deadline with _ | t <;>
      simp [Sxsapi.extract_project_details, Record.hasKey_optSet, Record.hasKey_nil, h]
  · by_cases hd : Sxsapi.description md = "" <;>
      simp [Sxsapi.extract_project_details, Record.hasKey_optSet, Record.hasKey_nil, hd,
        bne_iff_ne]
  · rcases h : m.skills with _ | t <;>
      simp [Sxsapi.extract_project_details, Record.hasKey_optSet, Record.hasKey_nil, h]
  · rcases h : m.coop with _ | t <;>
      simp [Sxsapi.extract_project_details, Record.hasKey_optSet, Record.hasKey_nil, h]
  · exact yj_extract_title_dichotomy page
  · decide
  · cases h2 <;> rfl

/-! C7 helpers. -/

theorem Record.set_ne_nil (d : Record) (k : String) (v : Value) :
    d.set k v ≠ [] := by
  cases d with
  | nil => simp [Record.set]
  | cons hd tl =>
    obtain ⟨k0, v0⟩ := hd
    simp only [Record.set]
    split <;> simp

/-- Every yuanjisong discovery output element has both required keys, and the
output is no longer than the container list. -/
theorem yj_links_spec (cs : List Yuanjisong.YjContainer) :
    (Yuanjisong.extract_project_links cs).length ≤ cs.length ∧
    ∀ p ∈ Yuanjisong.extract_project_links cs,
      p.hasKey "url" = true ∧ p.hasKey "title" = true := by
  induction cs with
  | nil => simp [Yuanjisong.extract_project_links]
  | cons c rest ih =>
    rcases h1 : Yuanjisong.extractLinkOne c with _ | p <;>
      simp only [Yuanjisong.extract_project_links, h1]
    · exact ⟨Nat.le_succ_of_le ih.1, ih.2⟩
    · by_cases hf : (p.hasKey "url" && p.hasKey "title") = true
      · rw [if_pos hf]
        refine ⟨Nat.succ_le_succ ih.1, ?_⟩
        intro q hq
        rcases List.mem_cons.mp hq with rfl | hq'
        · exact ⟨(Bool.and_eq_true _ _ |>.mp hf).1, (Bool.and_eq_true _ _ |>.mp hf).2⟩
        · exact ih.2 q hq'
      · rw [if_neg hf]
        exact ⟨Nat.le_succ_of_le ih.1, ih.2⟩

/-- The sxsapi line loop only emits records created at a heading (which always
carry `title`, `url` and `price`), so every output element has both required
keys and the output is bounded by the heading count. -/
theorem sx_loop_spec (lines : List Sxsapi.SxLine) :
    ∀ (current : Record) (res : List Record),
      (current = [] ∨ (current.hasKey "title" = true ∧ current.hasKey "url" = true)) →
      Sxsapi.extractLinksLoop current lines = some res →
      (∀ p ∈ res, p.hasKey "title" = true ∧ p.hasKey "url" = true) ∧
      res.length ≤ (lines.filter Sxsapi.isHeading).length +
        (if current.isEmpty then 0 else 1) := by
  induction lines with
  | nil =>
    intro current res hinv heq
    simp only [Sxsapi.extractLinksLoop, Option.some.injEq] at heq
    subst heq
    by_cases hc : current.isEmpty
    · simp [hc]
    · have hinv' : current.hasKey "title" = true ∧ current.hasKey "url" = true := by
        rcases hinv with h | h
        · exact absurd (by simp [h, List.isEmpty_nil] : current.isEmpty = true) hc
        · exact h
      simp [hc, hinv']
  | cons line rest ih =>
    intro current res hinv heq
    cases line with
    | skip =>
      simp only [Sxsapi.extractLinksLoop] at heq
      have := ih current res hinv heq
      simpa [Sxsapi.isHeading] using this
    | heading t u pr =>
      simp only [Sxsapi.extractLinksLoop] at heq
      rcases hcu : clean_url sxsapiBase u with _ | cu <;> simp only [hcu] at heq
      · exact absurd heq (by simp)
      · have hnewinv :
            Record.hasKey [("title", Value.str (pyStrip t)), ("url", Value.str cu),
              ("price", Value.str (pyStrip pr))] "title" = true ∧
            Record.hasKey [("title", Value.str (pyStrip t)), ("url", Value.str cu),
              ("price", Value.str (pyStrip pr))] "url" = true := by
          constructor <;> simp [Record.hasKey, Record.get]
        by_cases hc : current.isEmpty
        · rw [if_pos hc] at heq
          have hspec := ih _ res (Or.inr hnewinv) heq
          refine ⟨hspec.1, ?_⟩
          have h2 := hspec.2
          simp only [List.filter, Sxsapi.isHeading, List.length_cons] at h2 ⊢
          simp only [hc]
          simp at h2 ⊢
          omega
        · rw [if_neg hc] at heq
          rcases hrec : Sxsapi.extractLinksLoop
              [("title", Value.str (pyStrip t)), ("url", Value.str cu),
                ("price", Value.str (pyStrip pr))] rest with _ | res' <;>
            simp only [hrec] at heq
          · exact absurd heq (by simp)
          · simp only [Option.some.injEq] at heq
            subst heq
            have hspec := ih _ res' (Or.inr hnewinv) hrec
            have hinv' : current.hasKey "title" = true ∧ current.hasKey "url" = true := by
              rcases hinv with h | h
              · exact absurd (by simp [h, List.isEmpty_nil] : current.isEmpty = true) hc
              · exact h
            constructor
            · intro q hq
              rcases List.mem_cons.mp hq with rfl | hq'
              · exact hinv'
              · exact hspec.1 q hq'
            · have hb : ([("title", Value.str (pyStrip t)), ("url", Value.str cu),
                  ("price", Value.str (pyStrip pr))] : Record).isEmpty = false := rfl
              have h2 : res'.length ≤ (List.filter Sxsapi.isHeading rest).length + 1 := by
                simpa [hb] using hspec.2
              rw [if_neg hc]
              have hfil : List.filter Sxsapi.isHeading (Sxsapi.SxLine.heading t u pr :: rest) =
                  Sxsapi.SxLine.heading t u pr :: List.filter Sxsapi.isHeading rest := by
                simp [Sxsapi.isHeading]
              rw [hfil]
              simp only [List.length_cons]
              omega
    | attrs dur ddl =>
      simp only [Sxsapi.extractLinksLoop] at heq
      by_cases hc : current.isEmpty
      · rw [if_pos hc] at heq
        have := ih current res hinv heq
        simpa [Sxsapi.isHeading] using this
      · rw [if_neg hc] at heq
        have hinv' : current.hasKey "title" = true ∧ current.hasKey "url" = true := by
          rcases hinv with h | h
          · exact absurd (by simp [h, List.isEmpty_nil] : current.isEmpty = true) hc
          · exact h
        have hkeep : ∀ (k : String) (v : Value),
            (current.set k v).hasKey "title" = true ∧
            (current.set k v).hasKey "url" = true := by
          intro k v
          constructor <;> simp [Record.hasKey_set, hinv'.1, hinv'.2]
        have hne : ∀ (k : String) (v : Value), (current.set k v).isEmpty = false := by
          intro k v
          have := Record.set_ne_nil current k v
          cases hs : current.set k v with
          | nil => exact absurd hs this
          | cons a l => simp
        cases dur with
        | some dv =>
          have hspec := ih _ res (Or.inr (hkeep "duration" (Value.str dv))) heq
          refine ⟨hspec.1, ?_⟩
          have h2 := hspec.2
          simp only [hne] at h2
          simpa [Sxsapi.isHeading, hc] using h2
        | none =>
          cases ddl with
          | some dv =>
            have hspec := ih _ res (Or.inr (hkeep "deadline" (Value.str dv))) heq
            refine ⟨hspec.1, ?_⟩
            have h2 := hspec.2
            simp only [hne] at h2
            simpa [Sxsapi.isHeading, hc] using h2
          | none =>
            have hspec := ih current res hinv heq
            refine ⟨hspec.1, ?_⟩
            simpa [Sxsapi.isHeading, hc] using hspec.2

/-- **C7 (amended).** Discovery emits only elements that carry both the
`title` and `url` keys, and never more elements than structural blocks scanned
(containers for yuanjisong, heading lines for sxsapi) — but the required
fields are checked for presence, not non-emptiness, so their values may be
empty strings. -/
theorem C7_discovery_requires_title_and_url (cs : List Yuanjisong.YjContainer)
    (lines : List Sxsapi.SxLine) (res : List Record)
    (hres : Sxsapi.extract_project_links lines = some res) :
    ((Yuanjisong.extract_project_links cs).length ≤ cs.length ∧
     ∀ p ∈ Yuanjisong.extract_project_links cs,
       p.hasKey "url" = true ∧ p.hasKey "title" = true) ∧
    (res.length ≤ (lines.filter Sxsapi.isHeading).length ∧
     ∀ p ∈ res, p.hasKey "title" = true ∧ p.hasKey "url" = true) := by
  refine ⟨yj_links_spec cs, ?_, ?_⟩
  · have := (sx_loop_spec lines [] res (Or.inl rfl) hres).2
    simpa using this
  · exact (sx_loop_spec lines [] res (Or.inl rfl) hres).1

/-- **C7 counterexample.** A yuanjisong container whose title element holds
only whitespace is emitted with `title` bound to the empty string: discovery
checks key presence, not non-emptiness. -/
theorem C7_counterexample_empty_title_emitted :
    Yuanjisong.extract_project_links
        [⟨some ("/job/1", some "  "), none, none, none, none, none⟩] =
      [[("url", Value.str "https://www.yuanjisong.com/job/1"),
        ("title", Value.str "")]] ∧
    (Record.get [("url", Value.str "https://www.yuanjisong.com/job/1"),
        ("title", Value.str "")] "title") = some (Value.str "") := by
  decide

theorem C7_witness :
    Record.hasKey [("title", Value.str "T"),
      ("url", Value.str "https://sxsapi.com/post/1"),
      ("price", Value.str "100")] "title" = true ∧
    Record.hasKey [("title", Value.str "T"),
      ("url", Value.str "https://sxsapi.com/post/1"),
      ("price", Value.str "100")] "url" = true :=
  (C7_discovery_requires_title_and_url []
      [Sxsapi.SxLine.heading "T" "https://sxsapi.com/post/1" "100"]
      [[("title", Value.str "T"), ("url", Value.str "https://sxsapi.com/post/1"),
        ("price", Value.str "100")]]
      (by decide)).2.2
    [("title", Value.str "T"), ("url", Value.str "https://sxsapi.com/post/1"),
      ("price", Value.str "100")] (by decide)

